import Mathlib

/-!
Shallow embedding of the invoice-generator application (`src/app.py`) and
verification of its specification claims.

Conventions of the embedding:
* A pandas cell is an `Option String`: `none` models a missing value (NaN),
  `some s` models the raw string cell.  `pd.isna` is the `none` test.
* Python `float` values produced by `float(...)` on finite decimal literals
  are modelled exactly as rationals (`ℚ`); the `inf`/`nan` literals and
  digit-group underscores accepted by Python's `float` are outside the
  modelled grammar (no claim depends on them).
* Python `str.strip` is modelled over the ASCII whitespace characters
  (space, tab, LF, VT, FF, CR); non-ASCII Unicode whitespace does not occur
  in any input considered by the claims.
-/

namespace InvoiceApp

/-- The double-quote character `"`. -/
def dquote : Char := Char.ofNat 34

/-- The single-quote character. -/
def squote : Char := Char.ofNat 39

/-- Python `str.strip` whitespace test, restricted to ASCII whitespace. -/
def isPySpace (c : Char) : Bool :=
  c = ' ' || c = Char.ofNat 9 || c = Char.ofNat 10 || c = Char.ofNat 11 ||
  c = Char.ofNat 12 || c = Char.ofNat 13

/-- Python `str.strip`: remove leading and trailing whitespace. -/
def pyStrip (cs : List Char) : List Char :=
  ((cs.dropWhile isPySpace).reverse.dropWhile isPySpace).reverse

/-- Numeric value of an ASCII digit character. -/
def charVal (c : Char) : ℕ := c.toNat - 48

/-- Value of a big-endian list of ASCII digit characters. -/
def digitsVal (cs : List Char) : ℕ := cs.foldl (fun a c => 10 * a + charVal c) 0

/-- Leading sign of a Python float literal: `-` sets the negative flag,
`+` is consumed, anything else is left in place. -/
def parseSign (cs : List Char) : Bool × List Char :=
  match cs with
  | [] => (false, [])
  | c :: rest =>
    if c = '-' then (true, rest)
    else if c = '+' then (false, rest)
    else (false, c :: rest)

/-- Fractional part of a Python float literal: consume a `.` followed by
digits, returning (fraction digits, unconsumed rest). -/
def parseAfterDot (cs : List Char) : List Char × List Char :=
  match cs with
  | [] => ([], [])
  | c :: rest =>
    if c = '.' then (rest.takeWhile Char.isDigit, rest.dropWhile Char.isDigit)
    else ([], c :: rest)

/-- Exponent digits of a Python float literal (after `e`/`E`): an optional
sign followed by one or more digits consuming the whole rest. -/
def parseExpDigits (cs : List Char) : Option ℤ :=
  if (parseSign cs).2.takeWhile Char.isDigit = [] ∨
      (parseSign cs).2.dropWhile Char.isDigit ≠ [] then none
  else some (if (parseSign cs).1
    then -(digitsVal ((parseSign cs).2.takeWhile Char.isDigit) : ℤ)
    else (digitsVal ((parseSign cs).2.takeWhile Char.isDigit) : ℤ))

/-- Exponent part of a Python float literal: empty means exponent 0,
otherwise `e`/`E` followed by signed digits; anything else fails. -/
def parseExponent (cs : List Char) : Option ℤ :=
  match cs with
  | [] => some 0
  | c :: rest => if c = 'e' ∨ c = 'E' then parseExpDigits rest else none

/-- Negate when the flag is set. -/
def mkSigned (neg : Bool) (v : ℚ) : ℚ := if neg then -v else v

/-- Assemble the exact rational value of a parsed float literal from its
sign, integer digits, fraction digits and unconsumed tail. -/
def assembleFloat (neg : Bool) (ip fp tail : List Char) : Option ℚ :=
  if ip = [] ∧ fp = [] then none
  else
    match parseExponent tail with
    | none => none
    | some e =>
      some (mkSigned neg
        ((digitsVal (ip ++ fp) : ℚ) / (10 : ℚ) ^ fp.length * (10 : ℚ) ^ e))

/-- Python `float(...)` on an already-stripped character list: grammar
`[sign] (digits [. digits] | . digits) [(e|E) [sign] digits]`, rejecting
anything else (modelling the finite-decimal fragment exactly over `ℚ`). -/
def parseFloatCore (cs : List Char) : Option ℚ :=
  assembleFloat (parseSign cs).1
    ((parseSign cs).2.takeWhile Char.isDigit)
    (parseAfterDot ((parseSign cs).2.dropWhile Char.isDigit)).1
    (parseAfterDot ((parseSign cs).2.dropWhile Char.isDigit)).2

/-- Python `float(s)` (which itself strips surrounding whitespace),
returning `none` where Python raises `ValueError`. -/
def pyFloat? (cs : List Char) : Option ℚ := parseFloatCore (pyStrip cs)

/-- `cs.head? = some l && cs.getLast? = some r`: Python
`s.startswith(l) and s.endswith(r)` for one-character affixes. -/
def wrappedIn (l r : Char) (cs : List Char) : Bool :=
  (cs.head? == some l) && (cs.getLast? == some r)

/-- Python `s[1:-1].strip()`: drop the first and last character, strip. -/
def unwrap (cs : List Char) : List Char := pyStrip ((cs.drop 1).dropLast)

/-- Step 1 of `clean_currency` on the stripped string: remove one layer of
surrounding matching quotes, re-stripping. -/
def afterQuotes (cs : List Char) : List Char :=
  if wrappedIn dquote dquote cs || wrappedIn squote squote cs then unwrap cs
  else cs

/-- Step 2 of `clean_currency`: the negative flag — the quote-stripped
string is wrapped in parentheses. -/
def parenNeg (cs : List Char) : Bool := wrappedIn '(' ')' cs

/-- Step 2 of `clean_currency`: remove surrounding parentheses,
re-stripping. -/
def afterParens (cs : List Char) : List Char :=
  if wrappedIn '(' ')' cs then unwrap cs else cs

/-- Characters surviving `s.replace(',', '').replace('$', '')`. -/
def keepChar (c : Char) : Bool := !(c == ',') && !(c == '$')

/-- The string handed to `float(...)` inside `clean_currency`
(`src/app.py` lines 38–45). -/
def currencyRemainder (cs : List Char) : List Char :=
  (afterParens (afterQuotes (pyStrip cs))).filter keepChar

/-- The negative flag computed by `clean_currency` (`src/app.py` 41–44). -/
def currencyNeg (cs : List Char) : Bool := parenNeg (afterQuotes (pyStrip cs))

/-- `clean_currency` (`src/app.py` lines 34–50).  `none` models a missing
(`pd.isna`) value; a failed `float` parse yields `0.0`. -/
def clean_currency (v : Option String) : ℚ :=
  match v with
  | none => 0
  | some s => (pyFloat? (currencyRemainder s.data)).elim 0 (mkSigned (currencyNeg s.data))

/-- Python `str.isalpha`, modelled on the ASCII and Latin-1 range (the
full Unicode alphabetic table is out of scope; no claim depends on
characters above U+00FF). -/
def pyIsAlpha (c : Char) : Bool :=
  c.isAlpha || (0xC0 ≤ c.toNat && c.toNat ≤ 0xFF &&
    !(c.toNat == 0xD7) && !(c.toNat == 0xF7)) ||
  c.toNat == 0xAA || c.toNat == 0xB5 || c.toNat == 0xBA

/-- Characters kept by `sanitize_filename` (`src/app.py` line 56). -/
def keepFilenameChar (c : Char) : Bool :=
  pyIsAlpha c || c.isDigit || c == ' ' || c == '-' || c == '_'

/-- `sanitize_filename` (`src/app.py` lines 52–57). -/
def sanitize_filename (text : String) : String :=
  ⟨pyStrip (text.data.filter keepFilenameChar)⟩

/-- The ASCII character class `[A-Za-z0-9 _-]` named by the spec. -/
def asciiAllowed (c : Char) : Bool :=
  c.isAlpha || c.isDigit || c == ' ' || c == '-' || c == '_'

/-- The ASCII digit character for `d < 10`. -/
def digitChar (d : ℕ) : Char := Char.ofNat (48 + d)

/-- Decimal digit characters of a natural number, big-endian (`"0"` for 0),
as produced by Python's integer formatting. -/
def natDigits (m : ℕ) : List Char :=
  if m = 0 then [digitChar 0] else ((Nat.digits 10 m).map digitChar).reverse

/-- Insert `,` after every third character of a reversed digit string:
the thousands grouping of Python's `{:,}` format, seen from the right. -/
def group3Rev : List Char → List Char
  | [] => []
  | [a] => [a]
  | [a, b] => [a, b]
  | [a, b, c] => [a, b, c]
  | a :: b :: c :: d :: rest => a :: b :: c :: ',' :: group3Rev (d :: rest)

/-- Thousands grouping of a big-endian digit string (`1234` ↦ `1,234`). -/
def group3 (ds : List Char) : List Char := (group3Rev ds.reverse).reverse

/-- The two decimal places of `{:.2f}` for a cents remainder `r < 100`. -/
def twoDigits (r : ℕ) : List Char := [digitChar (r / 10), digitChar (r % 10)]

/-- Python `f"{v:,.2f}"` for the exact non-negative value `(m*100+r)/100`:
grouped integer digits, a dot, two fraction digits. -/
def fmt2 (m r : ℕ) : List Char := group3 (natDigits m) ++ '.' :: twoDigits r

/-- The characters of `src/app.py` line 177,
`f"({abs(amount):,.2f})" if amount < 0 else f"{amount:,.2f}"`, for an
amount of exactly `n` cents (`amount = n/100`). -/
def formatAmountChars (n : ℤ) : List Char :=
  if n < 0 then '(' :: (fmt2 (n.natAbs / 100) (n.natAbs % 100) ++ [')'])
  else fmt2 (n.toNat / 100) (n.toNat % 100)

/-- Line-item amount formatting (`src/app.py` line 177) as a string. -/
def formatAmount (n : ℤ) : String := ⟨formatAmountChars n⟩

/-- One uploaded CSV row, each cell a raw string or missing (NaN). -/
structure Row where
  name : Option String
  docNumber : Option String
  item : Option String
  quantity : Option String
  itemRate : Option String
  amount : Option String
deriving DecidableEq

/-- All non-missing `Document Number` cells, in row order. -/
def docKeys (rows : List Row) : List String := rows.filterMap (·.docNumber)

/-- First-appearance deduplication helper: `seen` holds the values
already emitted. -/
def firstUniqAux (seen : List String) : List String → List String
  | [] => []
  | x :: xs =>
    if seen.contains x then firstUniqAux seen xs
    else x :: firstUniqAux (x :: seen) xs

/-- First-appearance deduplication: the order pandas `Series.unique` uses. -/
def firstUniq (l : List String) : List String := firstUniqAux [] l

/-- Code-point lexicographic order on character lists: Python/pandas
string comparison, which fixes `groupby`'s sorted iteration order. -/
def lexLe : List Char → List Char → Bool
  | [], _ => true
  | _ :: _, [] => false
  | a :: as, b :: bs =>
    if a.toNat < b.toNat then true
    else if b.toNat < a.toNat then false
    else lexLe as bs

/-- Lexicographic `≤` on strings as a proposition. -/
def strLe (a b : String) : Prop := lexLe a.data b.data = true

instance : DecidableRel strLe :=
  fun a b => inferInstanceAs (Decidable (lexLe a.data b.data = true))

/-- The distinct document numbers in sorted order: the iteration order of
`df.groupby('Document Number')` (pandas sorts group keys, `sort=True`). -/
def sortedKeys (rows : List Row) : List String :=
  List.insertionSort strLe (firstUniq (docKeys rows))

/-- The rows of one group: `groupby` collects exactly the rows whose
`Document Number` equals the key, in original row order. -/
def groupOf (rows : List Row) (k : String) : List Row :=
  rows.filter (fun r => decide (r.docNumber = some k))

/-- `company_name` (`src/app.py` lines 287–288): first non-missing `Name`
of the group, else `"Unknown Company"`. -/
def company_name (g : List Row) : String :=
  match g.filterMap (·.name) with
  | [] => "Unknown Company"
  | n :: _ => n

/-- Detail-row test (`src/app.py` line 291): `Item` non-missing and
non-blank after trimming. -/
def isDetailRow (r : Row) : Bool :=
  match r.item with
  | none => false
  | some s => !(pyStrip s.data == [])

/-- `details` (`src/app.py` lines 291–292): the detail rows, falling back
to the whole group when no row qualifies. -/
def details (g : List Row) : List Row :=
  if g.filter isDetailRow = [] then g else g.filter isDetailRow

/-- Python truthiness of the `po_number` argument (`if po_number:`):
present and non-empty. -/
def pyTruthy (po : Option String) : Bool :=
  match po with
  | none => false
  | some s => !(s == "")

/-- Rendered description of one line item (`src/app.py` lines 156–162):
`"Item N"` in PO mode or when the item is missing, the item's own text in
vendor/random mode. -/
def lineDesc (poT : Bool) (counter : ℕ) (item : Option String) : String :=
  match item with
  | some s => if poT then "Item " ++ toString counter else s
  | none => "Item " ++ toString counter

/-- The renderer's line loop (`src/app.py` lines 131–164): `item_counter`
starts at 1 and increments per row. -/
def lineDescsFrom (poT : Bool) (counter : ℕ) : List Row → List String
  | [] => []
  | r :: rest => lineDesc poT counter r.item :: lineDescsFrom poT (counter + 1) rest

/-- The descriptions rendered for a document's items. -/
def lineDescsOf (po : Option String) (items : List Row) : List String :=
  lineDescsFrom (pyTruthy po) 1 items

/-- One generated PO document: the observable fields of the render. -/
structure PODoc where
  company : String
  po : String
  lineDescs : List String
  filename : String
deriving DecidableEq

/-- Archive filename in PO mode (`src/app.py` lines 298–301). -/
def poFilename (cname k : String) : String :=
  (if sanitize_filename cname = "" then "Invoice" else sanitize_filename cname)
    ++ "_" ++ sanitize_filename k ++ ".pdf"

/-- Build the document of one group (`src/app.py` lines 285–303). -/
def buildDoc (k : String) (g : List Row) : PODoc :=
  ⟨company_name g, k, lineDescsOf (some k) (details g), poFilename (company_name g) k⟩

/-- PO-mode processing after validation (`src/app.py` lines 277–305):
one document per group, in `groupby` iteration order. -/
def processPO (rows : List Row) : List PODoc :=
  (sortedKeys rows).map (fun k => buildDoc k (groupOf rows k))

/-- The required PO-mode columns (`src/app.py` line 269). -/
def required_columns : List String :=
  ["Name", "Document Number", "Amount", "Item", "Quantity", "Item Rate"]

/-- `missing_cols` (`src/app.py` line 272). -/
def missing_cols (cols : List String) : List String :=
  required_columns.filter (fun c => !(cols.contains c))

/-- `df.columns.str.strip()` on one header (`src/app.py` line 229). -/
def pyStripStr (s : String) : String := ⟨pyStrip s.data⟩

/-- The PO-mode run (`src/app.py` lines 266–308): trim headers, report the
missing required columns as a validation error (producing nothing), else
produce the documents. -/
def poModeRun (rawCols : List String) (rows : List Row) :
    Except (List String) (List PODoc) :=
  if missing_cols (rawCols.map pyStripStr) = [] then Except.ok (processPO rows)
  else Except.error (missing_cols (rawCols.map pyStripStr))

/-- `unique_vendors` (`src/app.py` line 239): distinct non-missing names,
first-appearance order (pandas `dropna().unique()`). -/
def unique_vendors (rows : List Row) : List String :=
  firstUniq (rows.filterMap (·.name))

/-! ### Helper lemmas about stripping, digits and grouping -/

theorem takeWhile_append_all {α : Type} {p : α → Bool} {xs : List α} (ys : List α)
    (h : ∀ x ∈ xs, p x = true) :
    (xs ++ ys).takeWhile p = xs ++ ys.takeWhile p := by
  induction xs with
  | nil => simp
  | cons a xs ih =>
    rw [List.cons_append, List.takeWhile_cons, h a (by simp), if_pos rfl,
      List.cons_append, ih (fun x hx => h x (by simp [hx]))]

theorem dropWhile_append_all {α : Type} {p : α → Bool} {xs : List α} (ys : List α)
    (h : ∀ x ∈ xs, p x = true) :
    (xs ++ ys).dropWhile p = ys.dropWhile p := by
  induction xs with
  | nil => simp
  | cons a xs ih =>
    rw [List.cons_append, List.dropWhile_cons, h a (by simp), if_pos rfl,
      ih (fun x hx => h x (by simp [hx]))]

theorem takeWhile_all {α : Type} {p : α → Bool} {l : List α}
    (h : ∀ x ∈ l, p x = true) : l.takeWhile p = l := by
  have := takeWhile_append_all [] h
  simpa using this

theorem dropWhile_all {α : Type} {p : α → Bool} {l : List α}
    (h : ∀ x ∈ l, p x = true) : l.dropWhile p = [] := by
  have := dropWhile_append_all [] h
  simpa using this

theorem dropWhile_all_neg {α : Type} {p : α → Bool} {l : List α}
    (h : ∀ x ∈ l, p x = false) : l.dropWhile p = l := by
  cases l with
  | nil => rfl
  | cons a l => rw [List.dropWhile_cons, h a (by simp), if_neg (by simp)]

theorem head?_dropWhile {α : Type} {p : α → Bool} {l : List α} {c : α}
    (h : (l.dropWhile p).head? = some c) : p c = false := by
  induction l with
  | nil => simp [List.dropWhile] at h
  | cons a l ih =>
    rw [List.dropWhile_cons] at h
    by_cases hpa : p a = true
    · exact ih (by rwa [if_pos hpa] at h)
    · rw [if_neg hpa] at h
      simp only [List.head?_cons, Option.some.injEq] at h
      subst h
      exact Bool.eq_false_iff.mpr hpa

theorem getLast?_dropWhile_ne {α : Type} {p : α → Bool} {l : List α}
    (h : l.dropWhile p ≠ []) : (l.dropWhile p).getLast? = l.getLast? := by
  induction l with
  | nil => simp [List.dropWhile] at h
  | cons a l ih =>
    rw [List.dropWhile_cons]
    by_cases hpa : p a = true
    · rw [List.dropWhile_cons, if_pos hpa] at h
      rw [if_pos hpa, ih h]
      cases l with
      | nil => simp [List.dropWhile] at h
      | cons b l => rw [List.getLast?_cons_cons]
    · rw [if_neg hpa]

theorem mem_dropWhile {α : Type} {p : α → Bool} {l : List α} {c : α}
    (h : c ∈ l.dropWhile p) : c ∈ l :=
  (List.dropWhile_sublist p).mem h

theorem mem_pyStrip {l : List Char} {c : Char} (h : c ∈ pyStrip l) : c ∈ l := by
  unfold pyStrip at h
  rw [List.mem_reverse] at h
  have h2 := mem_dropWhile h
  rw [List.mem_reverse] at h2
  exact mem_dropWhile h2

theorem pyStrip_eq_self {l : List Char} (h : ∀ c ∈ l, isPySpace c = false) :
    pyStrip l = l := by
  unfold pyStrip
  rw [dropWhile_all_neg h, dropWhile_all_neg (fun c hc => h c (List.mem_reverse.mp hc)),
    List.reverse_reverse]

theorem pyStrip_head? {l : List Char} {c : Char}
    (h : (pyStrip l).head? = some c) : isPySpace c = false := by
  unfold pyStrip at h
  rw [List.head?_reverse] at h
  have hne : (((l.dropWhile isPySpace).reverse).dropWhile isPySpace) ≠ [] := by
    intro he; rw [he] at h; simp at h
  rw [getLast?_dropWhile_ne hne, List.getLast?_reverse] at h
  exact head?_dropWhile h

theorem pyStrip_getLast? {l : List Char} {c : Char}
    (h : (pyStrip l).getLast? = some c) : isPySpace c = false := by
  unfold pyStrip at h
  rw [List.getLast?_reverse] at h
  exact head?_dropWhile h

theorem digit_ne {c : Char} (x : Char) (h : c.isDigit = true)
    (hx : x.isDigit = false) : c ≠ x := by
  intro he
  rw [he, hx] at h
  exact Bool.false_ne_true h

theorem isPySpace_of_digit {c : Char} (h : c.isDigit = true) :
    isPySpace c = false := by
  by_contra hc
  rw [Bool.not_eq_false] at hc
  unfold isPySpace at hc
  simp only [Bool.or_eq_true, decide_eq_true_eq] at hc
  rcases hc with ((((hc | hc) | hc) | hc) | hc) | hc <;>
    (rw [hc] at h; exact absurd h (by decide))

theorem keepChar_of_digit {c : Char} (h : c.isDigit = true) :
    keepChar c = true := by
  unfold keepChar
  simp only [Bool.and_eq_true, Bool.not_eq_true', beq_eq_false_iff_ne]
  exact ⟨digit_ne _ h (by decide), digit_ne _ h (by decide)⟩

theorem digitChar_isDigit {d : ℕ} (h : d < 10) : (digitChar d).isDigit = true := by
  interval_cases d <;> decide

theorem charVal_digitChar {d : ℕ} (h : d < 10) : charVal (digitChar d) = d := by
  interval_cases d <;> decide

theorem digitsVal_foldl (a : ℕ) (l : List Char) :
    l.foldl (fun a c => 10 * a + charVal c) a
      = a * 10 ^ l.length + l.foldl (fun a c => 10 * a + charVal c) 0 := by
  induction l generalizing a with
  | nil => simp
  | cons c l ih =>
    rw [List.foldl_cons, List.foldl_cons, ih (10 * a + charVal c),
      ih (10 * 0 + charVal c), List.length_cons]
    ring

theorem digitsVal_append (xs ys : List Char) :
    digitsVal (xs ++ ys) = digitsVal xs * 10 ^ ys.length + digitsVal ys := by
  unfold digitsVal
  rw [List.foldl_append]
  exact digitsVal_foldl _ _

theorem digitsVal_rev_map {L : List ℕ} (h : ∀ d ∈ L, d < 10) :
    digitsVal ((L.map digitChar).reverse) = Nat.ofDigits 10 L := by
  induction L with
  | nil => rfl
  | cons d L ih =>
    rw [List.map_cons, List.reverse_cons, digitsVal_append,
      ih (fun x hx => h x (by simp [hx])), Nat.ofDigits_cons]
    have h1 : digitsVal [digitChar d] = d := by
      show 10 * 0 + charVal (digitChar d) = d
      rw [charVal_digitChar (h d (by simp))]
      omega
    rw [h1, List.length_singleton, pow_one]
    ring

theorem digitsVal_natDigits (m : ℕ) : digitsVal (natDigits m) = m := by
  unfold natDigits
  by_cases hm : m = 0
  · rw [if_pos hm, hm]; decide
  · rw [if_neg hm, digitsVal_rev_map (fun d hd => Nat.digits_lt_base (by norm_num) hd),
      Nat.ofDigits_digits]

theorem natDigits_digit {m : ℕ} {c : Char} (h : c ∈ natDigits m) :
    c.isDigit = true := by
  unfold natDigits at h
  by_cases hm : m = 0
  · rw [if_pos hm] at h
    simp only [List.mem_singleton] at h
    rw [h]; decide
  · rw [if_neg hm, List.mem_reverse, List.mem_map] at h
    obtain ⟨d, hd, hdc⟩ := h
    rw [← hdc]
    exact digitChar_isDigit (Nat.digits_lt_base (by norm_num) hd)

theorem natDigits_ne_nil (m : ℕ) : natDigits m ≠ [] := by
  unfold natDigits
  by_cases hm : m = 0
  · rw [if_pos hm]; simp
  · rw [if_neg hm]
    simp only [ne_eq, List.reverse_eq_nil_iff, List.map_eq_nil_iff]
    exact Nat.digits_ne_nil_iff_ne_zero.mpr hm

theorem twoDigits_digit {r : ℕ} (h : r < 100) {c : Char}
    (hc : c ∈ twoDigits r) : c.isDigit = true := by
  simp only [twoDigits, List.mem_cons, List.mem_singleton, List.not_mem_nil,
    or_false] at hc
  rcases hc with hc | hc
  · rw [hc]; exact digitChar_isDigit (by omega)
  · rw [hc]; exact digitChar_isDigit (Nat.mod_lt _ (by norm_num))

theorem digitsVal_twoDigits {r : ℕ} (h : r < 100) : digitsVal (twoDigits r) = r := by
  unfold twoDigits
  show 10 * (10 * 0 + charVal (digitChar (r / 10))) + charVal (digitChar (r % 10)) = r
  rw [charVal_digitChar (by omega), charVal_digitChar (Nat.mod_lt _ (by norm_num))]
  omega

theorem mem_group3Rev {l : List Char} {c : Char} (h : c ∈ group3Rev l) :
    c ∈ l ∨ c = ',' := by
  induction l using group3Rev.induct with
  | case1 => cases h
  | case2 a => exact Or.inl h
  | case3 a b => exact Or.inl h
  | case4 a b c' => exact Or.inl h
  | case5 a b c' d rest ih =>
    rw [group3Rev] at h
    simp only [List.mem_cons] at h ⊢
    rcases h with h | h | h | h | h
    · tauto
    · tauto
    · tauto
    · tauto
    · rcases ih h with hm | hm
      · simp only [List.mem_cons] at hm
        tauto
      · tauto

theorem filter_group3Rev {p : Char → Bool} (hp : p ',' = false) :
    ∀ {l : List Char}, (∀ c ∈ l, p c = true) → (group3Rev l).filter p = l := by
  intro l
  induction l using group3Rev.induct with
  | case1 => intro _; rfl
  | case2 a => intro h; simp [group3Rev, List.filter, h a (by simp)]
  | case3 a b =>
    intro h
    simp [group3Rev, List.filter, h a (by simp), h b (by simp)]
  | case4 a b c =>
    intro h
    simp [group3Rev, List.filter, h a (by simp), h b (by simp), h c (by simp)]
  | case5 a b c d rest ih =>
    intro h
    rw [group3Rev]
    have ha := h a (by simp)
    have hb := h b (by simp)
    have hc := h c (by simp)
    have hrec := ih (fun x hx => by
      simp only [List.mem_cons] at hx
      rcases hx with hx | hx
      · exact h x (by simp [hx])
      · exact h x (by simp [hx]))
    simp only [List.filter_cons, ha, hb, hc, hp, if_true, if_false, hrec]
    rw [if_neg (by simp)]

theorem mem_group3 {ds : List Char} {c : Char} (h : c ∈ group3 ds) :
    c ∈ ds ∨ c = ',' := by
  unfold group3 at h
  rw [List.mem_reverse] at h
  rcases mem_group3Rev h with hm | hm
  · exact Or.inl (List.mem_reverse.mp hm)
  · exact Or.inr hm

theorem filter_group3 {p : Char → Bool} (hp : p ',' = false) {ds : List Char}
    (h : ∀ c ∈ ds, p c = true) : (group3 ds).filter p = ds := by
  unfold group3
  rw [List.filter_reverse, filter_group3Rev hp (fun c hc => h c (List.mem_reverse.mp hc)),
    List.reverse_reverse]

theorem wrappedIn_false_left {l r : Char} {cs : List Char} {c : Char}
    (h : cs.head? = some c) (hne : c ≠ l) : wrappedIn l r cs = false := by
  unfold wrappedIn
  rw [h]
  simp [hne]

theorem wrappedIn_false_right {l r : Char} {cs : List Char} {c : Char}
    (h : cs.getLast? = some c) (hne : c ≠ r) : wrappedIn l r cs = false := by
  unfold wrappedIn
  rw [h]
  simp [hne]

/-! ### The float parser on formatted decimal strings -/

theorem parseSign_no_sign {c : Char} (cs : List Char) (h1 : c ≠ '-') (h2 : c ≠ '+') :
    parseSign (c :: cs) = (false, c :: cs) := by
  simp only [parseSign]
  rw [if_neg h1, if_neg h2]

theorem parseFloatCore_decimal {ds fr : List Char}
    (hds : ∀ c ∈ ds, c.isDigit = true) (hfr : ∀ c ∈ fr, c.isDigit = true)
    (hne : ds ≠ []) :
    parseFloatCore (ds ++ '.' :: fr)
      = some ((digitsVal (ds ++ fr) : ℚ) / (10 : ℚ) ^ fr.length) := by
  obtain ⟨d, ds', rfl⟩ := List.exists_cons_of_ne_nil hne
  have hd : d.isDigit = true := hds d (by simp)
  have hsign : parseSign ((d :: ds') ++ '.' :: fr) = (false, (d :: ds') ++ '.' :: fr) := by
    rw [List.cons_append]
    exact parseSign_no_sign _ (digit_ne _ hd (by decide)) (digit_ne _ hd (by decide))
  have htw : ((d :: ds') ++ '.' :: fr).takeWhile Char.isDigit = d :: ds' := by
    rw [takeWhile_append_all _ hds, List.takeWhile_cons, if_neg (by decide),
      List.append_nil]
  have hdw : ((d :: ds') ++ '.' :: fr).dropWhile Char.isDigit = '.' :: fr := by
    rw [dropWhile_append_all _ hds, List.dropWhile_cons, if_neg (by decide)]
  have hdot : parseAfterDot ('.' :: fr) = (fr, []) := by
    simp only [parseAfterDot]
    rw [if_pos trivial, takeWhile_all hfr, dropWhile_all hfr]
  unfold parseFloatCore
  rw [hsign]
  dsimp only
  rw [htw, hdw, hdot]
  dsimp only
  unfold assembleFloat
  rw [if_neg (by simp)]
  rw [show parseExponent [] = some 0 from rfl]
  dsimp only
  rw [show mkSigned false ((digitsVal ((d :: ds') ++ fr) : ℚ) / (10 : ℚ) ^ fr.length
      * (10 : ℚ) ^ (0 : ℤ)) = (digitsVal ((d :: ds') ++ fr) : ℚ) / (10 : ℚ) ^ fr.length
    from by rw [zpow_zero, mul_one]; rfl]

theorem pyFloat?_decimal (m r : ℕ) (hr : r < 100) :
    pyFloat? (natDigits m ++ '.' :: twoDigits r)
      = some (((m * 100 + r : ℕ) : ℚ) / 100) := by
  have hds : ∀ c ∈ natDigits m, c.isDigit = true := fun c hc => natDigits_digit hc
  have hfr : ∀ c ∈ twoDigits r, c.isDigit = true := fun c hc => twoDigits_digit hr hc
  unfold pyFloat?
  rw [pyStrip_eq_self]
  · rw [parseFloatCore_decimal hds hfr (natDigits_ne_nil m)]
    have hlen : (twoDigits r).length = 2 := rfl
    rw [digitsVal_append, digitsVal_natDigits, digitsVal_twoDigits hr, hlen]
    norm_num
  · intro c hc
    rcases List.mem_append.mp hc with hm | hm
    · exact isPySpace_of_digit (hds c hm)
    · rcases List.mem_cons.mp hm with hm | hm
      · rw [hm]; decide
      · exact isPySpace_of_digit (hfr c hm)

theorem fmt2_nonspace {m r : ℕ} (hr : r < 100) :
    ∀ c ∈ fmt2 m r, isPySpace c = false := by
  intro c hc
  unfold fmt2 at hc
  rcases List.mem_append.mp hc with hm | hm
  · rcases mem_group3 hm with hg | hg
    · exact isPySpace_of_digit (natDigits_digit hg)
    · rw [hg]; decide
  · rcases List.mem_cons.mp hm with hm | hm
    · rw [hm]; decide
    · exact isPySpace_of_digit (twoDigits_digit hr hm)

theorem fmt2_getLast? (m r : ℕ) :
    (fmt2 m r).getLast? = some (digitChar (r % 10)) := by
  unfold fmt2 twoDigits
  rw [show group3 (natDigits m) ++ '.' :: [digitChar (r / 10), digitChar (r % 10)]
      = (group3 (natDigits m) ++ ['.', digitChar (r / 10)]) ++ [digitChar (r % 10)]
    from by simp, List.getLast?_concat]

theorem filter_fmt2 {m r : ℕ} (hr : r < 100) :
    (fmt2 m r).filter keepChar = natDigits m ++ '.' :: twoDigits r := by
  unfold fmt2
  rw [List.filter_append,
    filter_group3 (by decide) (fun c hc => keepChar_of_digit (natDigits_digit hc)),
    List.filter_cons, if_pos (by decide),
    List.filter_eq_self.mpr (fun c hc => keepChar_of_digit (twoDigits_digit hr hc))]

theorem currency_stage_nonneg (m r : ℕ) (hr : r < 100) :
    currencyRemainder (fmt2 m r) = natDigits m ++ '.' :: twoDigits r ∧
      currencyNeg (fmt2 m r) = false := by
  have hstrip : pyStrip (fmt2 m r) = fmt2 m r := pyStrip_eq_self (fmt2_nonspace hr)
  have hlast := fmt2_getLast? m r
  have hdig : (digitChar (r % 10)).isDigit = true :=
    digitChar_isDigit (Nat.mod_lt _ (by norm_num))
  have hq : afterQuotes (fmt2 m r) = fmt2 m r := by
    unfold afterQuotes
    rw [wrappedIn_false_right hlast (digit_ne _ hdig (by decide)),
      wrappedIn_false_right hlast (digit_ne _ hdig (by decide)), if_neg (by simp)]
  refine ⟨?_, ?_⟩
  · unfold currencyRemainder
    rw [hstrip, hq]
    unfold afterParens
    rw [wrappedIn_false_right hlast (digit_ne _ hdig (by decide)), if_neg (by simp)]
    exact filter_fmt2 hr
  · unfold currencyNeg parenNeg
    rw [hstrip, hq]
    exact wrappedIn_false_right hlast (digit_ne _ hdig (by decide))

theorem currency_stage_neg (m r : ℕ) (hr : r < 100) :
    currencyRemainder ('(' :: (fmt2 m r ++ [')'])) = natDigits m ++ '.' :: twoDigits r ∧
      currencyNeg ('(' :: (fmt2 m r ++ [')'])) = true := by
  have hall : ∀ c ∈ '(' :: (fmt2 m r ++ [')']), isPySpace c = false := by
    intro c hc
    rcases List.mem_cons.mp hc with hm | hm
    · rw [hm]; decide
    · rcases List.mem_append.mp hm with hm | hm
      · exact fmt2_nonspace hr c hm
      · rw [List.mem_singleton.mp hm]; decide
  have hstrip := pyStrip_eq_self hall
  have hhead : ('(' :: (fmt2 m r ++ [')'])).head? = some '(' := rfl
  have hq : afterQuotes ('(' :: (fmt2 m r ++ [')'])) = '(' :: (fmt2 m r ++ [')']) := by
    unfold afterQuotes
    rw [wrappedIn_false_left hhead (by decide), wrappedIn_false_left hhead (by decide),
      if_neg (by simp)]
  have hlastp : ('(' :: (fmt2 m r ++ [')'])).getLast? = some ')' := by
    rw [← List.cons_append, List.getLast?_concat]
  have hwrap : wrappedIn '(' ')' ('(' :: (fmt2 m r ++ [')'])) = true := by
    unfold wrappedIn
    rw [hhead, hlastp]
    decide
  have hunwrap : unwrap ('(' :: (fmt2 m r ++ [')'])) = fmt2 m r := by
    unfold unwrap
    rw [show ('(' :: (fmt2 m r ++ [')'])).drop 1 = fmt2 m r ++ [')'] from rfl,
      List.dropLast_concat]
    exact pyStrip_eq_self (fmt2_nonspace hr)
  refine ⟨?_, ?_⟩
  · unfold currencyRemainder
    rw [hstrip, hq]
    unfold afterParens
    rw [hwrap]
    simp only [if_true]
    rw [hunwrap]
    exact filter_fmt2 hr
  · unfold currencyNeg parenNeg
    rw [hstrip, hq, hwrap]

/-! ### Claim C1 -/

/-- C1: currency round-trip.  For every finite amount of exactly `n` cents,
rendering it with the line-item format of `src/app.py` line 177 —
`N,NNN.NN` when non-negative, `(N,NNN.NN)` (parenthesised absolute value)
when negative — and then applying `clean_currency` to the rendered string
reproduces the amount `n/100` exactly, including its sign. -/
theorem clean_currency_roundtrip (n : ℤ) :
    clean_currency (some (formatAmount n)) = (n : ℚ) / 100 := by
  have hdata : (formatAmount n).data = formatAmountChars n := rfl
  show (pyFloat? (currencyRemainder (formatAmount n).data)).elim 0
    (mkSigned (currencyNeg (formatAmount n).data)) = (n : ℚ) / 100
  by_cases hn : n < 0
  · have hchars : formatAmountChars n
        = '(' :: (fmt2 (n.natAbs / 100) (n.natAbs % 100) ++ [')']) := by
      unfold formatAmountChars
      rw [if_pos hn]
    have hr : n.natAbs % 100 < 100 := Nat.mod_lt _ (by norm_num)
    obtain ⟨hrem, hneg⟩ := currency_stage_neg (n.natAbs / 100) (n.natAbs % 100) hr
    rw [hdata, hchars, hrem, hneg, pyFloat?_decimal _ _ hr]
    have hdm : n.natAbs / 100 * 100 + n.natAbs % 100 = n.natAbs := by omega
    have hcast : ((n.natAbs : ℕ) : ℚ) = -(n : ℚ) := by
      rw [Int.cast_natAbs, abs_of_neg hn]
      push_cast
      ring
    show mkSigned true (((n.natAbs / 100 * 100 + n.natAbs % 100 : ℕ) : ℚ) / 100)
      = (n : ℚ) / 100
    rw [hdm]
    unfold mkSigned
    rw [if_pos rfl, hcast]
    ring
  · have hchars : formatAmountChars n = fmt2 (n.toNat / 100) (n.toNat % 100) := by
      unfold formatAmountChars
      rw [if_neg hn]
    have hr : n.toNat % 100 < 100 := Nat.mod_lt _ (by norm_num)
    obtain ⟨hrem, hneg⟩ := currency_stage_nonneg (n.toNat / 100) (n.toNat % 100) hr
    rw [hdata, hchars, hrem, hneg, pyFloat?_decimal _ _ hr]
    have hdm : n.toNat / 100 * 100 + n.toNat % 100 = n.toNat := by omega
    have hcast : ((n.toNat : ℕ) : ℚ) = (n : ℚ) := by
      have h1 : (n.toNat : ℤ) = n := Int.toNat_of_nonneg (not_lt.mp hn)
      exact_mod_cast congrArg (fun z : ℤ => (z : ℚ)) h1
    show mkSigned false (((n.toNat / 100 * 100 + n.toNat % 100 : ℕ) : ℚ) / 100)
      = (n : ℚ) / 100
    rw [hdm]
    unfold mkSigned
    rw [if_neg (by simp), hcast]

/-! ### Claim C2 -/

/-- C2: the currency parser is total.  The embedding of `clean_currency`
is a total function into `ℚ`: a missing (`pd.isna`) input yields `0`, and
any string whose remainder — after quote stripping, parenthesis handling
and removal of `,` and `$` — fails to parse as a float also yields `0`
(the `except ValueError` branch). -/
theorem clean_currency_total_defaults :
    clean_currency none = 0 ∧
      ∀ s : String, pyFloat? (currencyRemainder s.data) = none →
        clean_currency (some s) = 0 := by
  refine ⟨rfl, ?_⟩
  intro s h
  show (pyFloat? (currencyRemainder s.data)).elim 0 (mkSigned (currencyNeg s.data)) = 0
  rw [h]
  rfl

/-- Witness for C2 at the concrete malformed input `"abc"`. -/
theorem clean_currency_total_defaults_witness :
    pyFloat? (currencyRemainder (String.data "abc")) = none ∧
      clean_currency (some "abc") = 0 :=
  ⟨by decide, clean_currency_total_defaults.2 "abc" (by decide)⟩

/-! ### Claim C9 -/

/-- C9 counterexample: on the spec's example input `"$(1,234.56)"` the
parser returns `0`, not `-1234.56`.  After quote stripping the string is
`$(1,234.56)`, which starts with `$`, so the parenthesis test of
`clean_currency` fails, no negative flag is set, and the remainder
`(1234.56)` makes `float` raise, giving the `0.0` fallback. -/
theorem dollar_paren_parses_zero :
    clean_currency (some "\"$(1,234.56)\"") = 0 ∧ (0 : ℚ) ≠ -(123456 / 100 : ℚ) := by
  refine ⟨by rfl, by norm_num⟩

/-- Evaluation helper: when the remainder of `clean_currency`'s cleanup is
a concrete decimal string `ds.fr`, the parsed value is the exact decimal. -/
theorem clean_currency_eval (s : String) (ds fr : List Char) (neg : Bool)
    (hrem : currencyRemainder s.data = ds ++ '.' :: fr)
    (hneg : currencyNeg s.data = neg)
    (hds : ∀ c ∈ ds, c.isDigit = true) (hfr : ∀ c ∈ fr, c.isDigit = true)
    (hne : ds ≠ [])
    (hsp : ∀ c ∈ ds ++ '.' :: fr, isPySpace c = false) :
    clean_currency (some s)
      = mkSigned neg ((digitsVal (ds ++ fr) : ℚ) / (10 : ℚ) ^ fr.length) := by
  show (pyFloat? (currencyRemainder s.data)).elim 0
    (mkSigned (currencyNeg s.data)) = _
  rw [hrem, hneg]
  unfold pyFloat?
  rw [pyStrip_eq_self hsp, parseFloatCore_decimal hds hfr hne]
  rfl

/-- C9 amended: the parser accepts heterogeneous representations in which
any `$` lies inside (or without) the parentheses — `"(1,234.56)"` and
`($1,234.56)` yield `-1234.56`, `$1,234.56` yields `1234.56` — but the
spec's exact example `"$(1,234.56)"` (dollar sign before the opening
parenthesis) is not recognised as negative and yields `0`. -/
theorem currency_examples :
    clean_currency (some "\"(1,234.56)\"") = -(123456 / 100 : ℚ) ∧
      clean_currency (some "($1,234.56)") = -(123456 / 100 : ℚ) ∧
      clean_currency (some "$1,234.56") = (123456 / 100 : ℚ) ∧
      clean_currency (some "\"$(1,234.56)\"") = 0 := by
  have e1 := clean_currency_eval "\"(1,234.56)\"" (String.data "1234")
    (String.data "56") true (by decide) (by decide) (by decide) (by decide)
    (by decide) (by decide)
  have e2 := clean_currency_eval "($1,234.56)" (String.data "1234")
    (String.data "56") true (by decide) (by decide) (by decide) (by decide)
    (by decide) (by decide)
  have e3 := clean_currency_eval "$1,234.56" (String.data "1234")
    (String.data "56") false (by decide) (by decide) (by decide) (by decide)
    (by decide) (by decide)
  have hv : digitsVal (String.data "1234" ++ String.data "56") = 123456 := by decide
  have hl : (String.data "56").length = 2 := by decide
  rw [hv, hl] at e1 e2 e3
  refine ⟨?_, ?_, ?_, by rfl⟩
  · rw [e1]; unfold mkSigned; norm_num
  · rw [e2]; unfold mkSigned; norm_num
  · rw [e3]; unfold mkSigned; norm_num

/-! ### Claim C8 -/

/-- C8 counterexample: `sanitize_filename` keeps non-ASCII letters, since
Python's `str.isalpha` is Unicode-aware: on input `"é"` the output is
`"é"` itself, which contains a character outside `[A-Za-z0-9 _-]`. -/
theorem sanitize_filename_non_ascii :
    sanitize_filename "é" = "é" ∧
      (sanitize_filename "é").data.all asciiAllowed = false := by
  refine ⟨by decide, by decide⟩

/-- C8 amended: every character of `sanitize_filename`'s output is an
alphanumeric in Python's (Unicode) sense or one of space, hyphen,
underscore; the output has no leading or trailing whitespace; and when
the input is pure ASCII the output only contains `[A-Za-z0-9 _-]`. -/
theorem sanitize_filename_charset (s : String) (c : Char) :
    (c ∈ (sanitize_filename s).data → keepFilenameChar c = true) ∧
    ((sanitize_filename s).data.head? = some c → isPySpace c = false) ∧
    ((sanitize_filename s).data.getLast? = some c → isPySpace c = false) ∧
    ((∀ x ∈ s.data, x.toNat < 128) → c ∈ (sanitize_filename s).data →
      asciiAllowed c = true) := by
  have hdata : (sanitize_filename s).data = pyStrip (s.data.filter keepFilenameChar) := rfl
  refine ⟨?_, ?_, ?_, ?_⟩
  · intro hc
    rw [hdata] at hc
    exact List.of_mem_filter (mem_pyStrip hc)
  · intro hh
    rw [hdata] at hh
    exact pyStrip_head? hh
  · intro hh
    rw [hdata] at hh
    exact pyStrip_getLast? hh
  · intro hascii hc
    rw [hdata] at hc
    have hkeep : keepFilenameChar c = true := List.of_mem_filter (mem_pyStrip hc)
    have hmem : c ∈ s.data := List.mem_of_mem_filter (mem_pyStrip hc)
    have hlt : c.toNat < 128 := hascii c hmem
    unfold keepFilenameChar at hkeep
    unfold asciiAllowed
    simp only [Bool.or_eq_true] at hkeep ⊢
    rcases hkeep with ((((h | h) | h) | h) | h)
    · unfold pyIsAlpha at h
      simp only [Bool.or_eq_true, Bool.and_eq_true, Bool.not_eq_true',
        decide_eq_true_eq, beq_iff_eq, beq_eq_false_iff_ne] at h
      rcases h with ((((h | h) | h) | h) | h)
      · exact Or.inl (Or.inl (Or.inl (Or.inl h)))
      · omega
      · omega
      · omega
      · omega
    · exact Or.inl (Or.inl (Or.inl (Or.inr h)))
    · exact Or.inl (Or.inl (Or.inr h))
    · exact Or.inl (Or.inr h)
    · exact Or.inr h

/-- Witness for C8 (amended) at the concrete input `" a,b "`, whose
sanitized form is `"ab"`. -/
theorem sanitize_filename_charset_witness :
    keepFilenameChar 'a' = true ∧ isPySpace 'a' = false ∧ isPySpace 'b' = false ∧
      asciiAllowed 'a' = true :=
  ⟨(sanitize_filename_charset " a,b " 'a').1 (by decide),
   (sanitize_filename_charset " a,b " 'a').2.1 (by decide),
   (sanitize_filename_charset " a,b " 'b').2.2.1 (by decide),
   (sanitize_filename_charset " a,b " 'a').2.2.2 (by decide) (by decide)⟩

/-! ### Lexicographic order and first-appearance deduplication -/

theorem lexLe_cons_iff {x y : Char} {xs ys : List Char} :
    lexLe (x :: xs) (y :: ys) = true ↔
      (x.toNat < y.toNat ∨ (x.toNat = y.toNat ∧ lexLe xs ys = true)) := by
  simp only [lexLe]
  by_cases h1 : x.toNat < y.toNat
  · simp [h1]
  · by_cases h2 : y.toNat < x.toNat
    · simp only [if_neg h1, if_pos h2]
      constructor
      · intro hf; exact absurd hf (by simp)
      · intro hf; omega
    · have heq : x.toNat = y.toNat := by omega
      simp [h1, h2, heq]

theorem lexLe_total (a b : List Char) : lexLe a b = true ∨ lexLe b a = true := by
  induction a generalizing b with
  | nil => exact Or.inl rfl
  | cons x xs ih =>
    cases b with
    | nil => exact Or.inr rfl
    | cons y ys =>
      rcases Nat.lt_trichotomy x.toNat y.toNat with hlt | heq | hgt
      · exact Or.inl (lexLe_cons_iff.mpr (Or.inl hlt))
      · rcases ih ys with h | h
        · exact Or.inl (lexLe_cons_iff.mpr (Or.inr ⟨heq, h⟩))
        · exact Or.inr (lexLe_cons_iff.mpr (Or.inr ⟨heq.symm, h⟩))
      · exact Or.inr (lexLe_cons_iff.mpr (Or.inl hgt))

theorem lexLe_trans : ∀ {a b c : List Char},
    lexLe a b = true → lexLe b c = true → lexLe a c = true := by
  intro a
  induction a with
  | nil => intro b c _ _; rfl
  | cons x xs ih =>
    intro b c h1 h2
    cases b with
    | nil => exact absurd h1 (by simp [lexLe])
    | cons y ys =>
      cases c with
      | nil => exact absurd h2 (by simp [lexLe])
      | cons z zs =>
        rcases lexLe_cons_iff.mp h1 with hxy | ⟨hxy, hxs⟩ <;>
          rcases lexLe_cons_iff.mp h2 with hyz | ⟨hyz, hys⟩
        · exact lexLe_cons_iff.mpr (Or.inl (by omega))
        · exact lexLe_cons_iff.mpr (Or.inl (by omega))
        · exact lexLe_cons_iff.mpr (Or.inl (by omega))
        · exact lexLe_cons_iff.mpr (Or.inr ⟨by omega, ih hxs hys⟩)

instance : IsTotal String strLe := ⟨fun a b => lexLe_total a.data b.data⟩

instance : IsTrans String strLe := ⟨fun _ _ _ => lexLe_trans⟩

theorem mem_firstUniqAux {a : String} :
    ∀ {l seen : List String}, a ∈ firstUniqAux seen l ↔ (a ∈ l ∧ a ∉ seen) := by
  intro l
  induction l with
  | nil =>
    intro seen
    simp [firstUniqAux]
  | cons x xs ih =>
    intro seen
    by_cases hx : seen.contains x = true
    · simp only [firstUniqAux, if_pos hx, ih, List.mem_cons]
      have hxseen : x ∈ seen := List.elem_iff.mp hx
      constructor
      · rintro ⟨h1, h2⟩
        exact ⟨Or.inr h1, h2⟩
      · rintro ⟨h1 | h1, h2⟩
        · exact absurd (h1 ▸ hxseen) h2
        · exact ⟨h1, h2⟩
    · simp only [firstUniqAux, if_neg hx, List.mem_cons, ih]
      constructor
      · rintro (rfl | ⟨h1, h2⟩)
        · exact ⟨Or.inl rfl, fun hmem => hx (List.elem_iff.mpr hmem)⟩
        · exact ⟨Or.inr h1, fun hmem => h2 (Or.inr hmem)⟩
      · rintro ⟨rfl | h1, h2⟩
        · exact Or.inl rfl
        · by_cases hax : a = x
          · exact Or.inl hax
          · refine Or.inr ⟨h1, fun hmem => ?_⟩
            rcases hmem with h | h
            · exact hax h
            · exact h2 h

theorem mem_firstUniq {a : String} {l : List String} :
    a ∈ firstUniq l ↔ a ∈ l := by
  unfold firstUniq
  rw [mem_firstUniqAux]
  simp

theorem processPO_map_po (rows : List Row) :
    (processPO rows).map (·.po) = sortedKeys rows := by
  unfold processPO
  rw [List.map_map]
  have hcomp : ((fun d : PODoc => d.po) ∘ fun k => buildDoc k (groupOf rows k)) = id := by
    funext k
    rfl
  rw [hcomp, List.map_id]

theorem length_processPO (rows : List Row) :
    (processPO rows).length = (firstUniq (docKeys rows)).length := by
  unfold processPO sortedKeys
  rw [List.length_map]
  exact (List.perm_insertionSort strLe _).length_eq

/-! ### Claim C3 -/

/-- C3: grouping a PO-mode table with N distinct document-number values
produces exactly N documents, and each document's display name is the
first non-missing `Name` of its group in original row order, with
`"Unknown Company"` when every name in the group is missing. -/
theorem po_grouping_count_and_names (rows : List Row) :
    (processPO rows).length = (firstUniq (docKeys rows)).length ∧
    ∀ d ∈ processPO rows,
      d.company
        = ((rows.filter (fun r => decide (r.docNumber = some d.po))).filterMap
            (·.name)).headD "Unknown Company" := by
  refine ⟨length_processPO rows, ?_⟩
  intro d hd
  unfold processPO at hd
  rw [List.mem_map] at hd
  obtain ⟨k, _, hbuild⟩ := hd
  have hpo : d.po = k := by rw [← hbuild]; rfl
  have hcomp : d.company = company_name (groupOf rows k) := by rw [← hbuild]; rfl
  rw [hcomp, hpo]
  show company_name (groupOf rows k) = ((groupOf rows k).filterMap (·.name)).headD _
  rcases hfm : (groupOf rows k).filterMap (·.name) with _ | ⟨n, l⟩
  · simp [company_name, hfm]
  · simp [company_name, hfm]

/-- Witness for C3 at a one-row upload producing one document. -/
theorem po_grouping_count_and_names_witness :
    ((⟨"Acme", "PO1", ["Item 1"], "Acme_PO1.pdf"⟩ : PODoc) ∈
        processPO [⟨some "Acme", some "PO1", some "Widget", none, none, none⟩]) ∧
      (⟨"Acme", "PO1", ["Item 1"], "Acme_PO1.pdf"⟩ : PODoc).company
        = (([(⟨some "Acme", some "PO1", some "Widget", none, none, none⟩ : Row)].filter
            (fun r => decide (r.docNumber
              = some (⟨"Acme", "PO1", ["Item 1"], "Acme_PO1.pdf"⟩ : PODoc).po))).filterMap
            (·.name)).headD "Unknown Company" :=
  ⟨by decide,
   (po_grouping_count_and_names
      [⟨some "Acme", some "PO1", some "Widget", none, none, none⟩]).2
     ⟨"Acme", "PO1", ["Item 1"], "Acme_PO1.pdf"⟩ (by decide)⟩

/-! ### Claim C4 -/

/-- C4 counterexample: with document numbers uploaded in the order
`"B"`, `"A"`, the produced documents come out in sorted order
`["A", "B"]` (pandas `groupby` sorts its keys), not in the
first-appearance order `["B", "A"]` the claim states. -/
theorem po_group_order_not_insertion :
    (processPO [⟨some "V1", some "B", none, none, none, none⟩,
        ⟨some "V2", some "A", none, none, none, none⟩]).map (·.po) = ["A", "B"] ∧
      firstUniq (docKeys [⟨some "V1", some "B", none, none, none, none⟩,
        ⟨some "V2", some "A", none, none, none, none⟩]) = ["B", "A"] ∧
      (["A", "B"] : List String) ≠ ["B", "A"] := by
  refine ⟨by decide, by decide, by decide⟩

/-- C4 amended: groups are keyed by exact string equality on the raw
document-number field — a row belongs to a document's group precisely
when its key equals that document's number — and the documents appear in
ascending code-point lexicographic order of the distinct keys (the sorted
iteration order of pandas `groupby`), not first-appearance order. -/
theorem po_group_order_sorted (rows : List Row) :
    ((processPO rows).map (·.po)).Pairwise strLe ∧
    List.Perm ((processPO rows).map (·.po)) (firstUniq (docKeys rows)) ∧
    (∀ k : String, k ∈ (processPO rows).map (·.po) ↔ some k ∈ rows.map (·.docNumber)) ∧
    ∀ d ∈ processPO rows, ∀ r ∈ rows,
      (r ∈ groupOf rows d.po ↔ r.docNumber = some d.po) := by
  have hmap := processPO_map_po rows
  refine ⟨?_, ?_, ?_, ?_⟩
  · rw [hmap]
    exact List.sorted_insertionSort strLe _
  · rw [hmap]
    unfold sortedKeys
    exact List.perm_insertionSort strLe _
  · intro k
    rw [hmap]
    unfold sortedKeys
    rw [(List.perm_insertionSort strLe _).mem_iff, mem_firstUniq]
    unfold docKeys
    rw [List.mem_filterMap]
    rw [List.mem_map]
  · intro d _ r hr
    unfold groupOf
    rw [List.mem_filter]
    simp [hr]

/-- Witness for C4 (amended) at a two-row upload. -/
theorem po_group_order_sorted_witness :
    ((⟨"V2", "A", ["Item 1"], "V2_A.pdf"⟩ : PODoc) ∈
        processPO [⟨some "V1", some "B", none, none, none, none⟩,
          ⟨some "V2", some "A", none, none, none, none⟩]) ∧
      ((⟨some "V2", some "A", none, none, none, none⟩ : Row) ∈
        ([⟨some "V1", some "B", none, none, none, none⟩,
          ⟨some "V2", some "A", none, none, none, none⟩] : List Row)) ∧
      ((⟨some "V2", some "A", none, none, none, none⟩ : Row) ∈
          groupOf [⟨some "V1", some "B", none, none, none, none⟩,
            ⟨some "V2", some "A", none, none, none, none⟩]
            (⟨"V2", "A", ["Item 1"], "V2_A.pdf"⟩ : PODoc).po ↔
        (⟨some "V2", some "A", none, none, none, none⟩ : Row).docNumber
          = some (⟨"V2", "A", ["Item 1"], "V2_A.pdf"⟩ : PODoc).po) :=
  ⟨by decide, by decide,
   (po_group_order_sorted
      [⟨some "V1", some "B", none, none, none, none⟩,
        ⟨some "V2", some "A", none, none, none, none⟩]).2.2.2
     ⟨"V2", "A", ["Item 1"], "V2_A.pdf"⟩ (by decide)
     ⟨some "V2", some "A", none, none, none, none⟩ (by decide)⟩

/-! ### Claim C5 -/

/-- C5: a PO-mode upload missing required columns (after whitespace
trimming of the header names) fails validation with exactly the list of
missing column names, and produces no documents at all. -/
theorem missing_columns_error (rawCols : List String) (rows : List Row)
    (h : required_columns.filter
        (fun c => !((rawCols.map pyStripStr).contains c)) ≠ []) :
    poModeRun rawCols rows
        = Except.error (required_columns.filter
            (fun c => !((rawCols.map pyStripStr).contains c))) ∧
      ∀ ds : List PODoc, poModeRun rawCols rows ≠ Except.ok ds := by
  have hm : missing_cols (rawCols.map pyStripStr) ≠ [] := h
  unfold poModeRun
  rw [if_neg hm]
  exact ⟨rfl, fun ds hds => Except.noConfusion hds⟩

/-- Witness for C5: an upload whose only column is `Name`. -/
theorem missing_columns_error_witness :
    (required_columns.filter
        (fun c => !(((["Name"] : List String).map pyStripStr).contains c)) ≠ []) ∧
      poModeRun ["Name"] [] = Except.error (required_columns.filter
        (fun c => !(((["Name"] : List String).map pyStripStr).contains c))) :=
  ⟨by decide, (missing_columns_error ["Name"] [] (by decide)).1⟩

/-! ### Claim C6 -/

/-- C6: for a non-empty group, if the detail-row filter (non-missing,
non-blank `Item`) selects no rows, the whole group is used instead, so
the rendered line-item list is never empty. -/
theorem details_fallback_nonempty (g : List Row) (po : Option String) (h : g ≠ []) :
    (g.filter isDetailRow = [] → details g = g) ∧ details g ≠ [] ∧
      lineDescsOf po (details g) ≠ [] := by
  have hd : details g ≠ [] := by
    unfold details
    by_cases hf : g.filter isDetailRow = []
    · rw [if_pos hf]; exact h
    · rw [if_neg hf]; exact hf
  refine ⟨?_, hd, ?_⟩
  · intro hf
    unfold details
    rw [if_pos hf]
  · obtain ⟨r, rest, hrr⟩ := List.exists_cons_of_ne_nil hd
    unfold lineDescsOf
    rw [hrr]
    simp [lineDescsFrom]

/-- Witness for C6 at a one-row group whose `Item` is missing. -/
theorem details_fallback_nonempty_witness :
    (([⟨some "Acme", some "PO1", none, none, none, none⟩] : List Row) ≠ []) ∧
      details [⟨some "Acme", some "PO1", none, none, none, none⟩] ≠ [] :=
  ⟨by decide,
   (details_fallback_nonempty [⟨some "Acme", some "PO1", none, none, none, none⟩]
      (some "PO1") (by decide)).2.1⟩

/-! ### Claim C7 -/

theorem lineDescsFrom_getElem? (poT : Bool) (c i : ℕ) (items : List Row) :
    (lineDescsFrom poT c items)[i]?
      = items[i]?.map (fun r => lineDesc poT (c + i) r.item) := by
  induction items generalizing c i with
  | nil => simp [lineDescsFrom]
  | cons r rest ih =>
    cases i with
    | zero => simp [lineDescsFrom]
    | succ n =>
      simp only [lineDescsFrom, List.getElem?_cons_succ]
      rw [ih (c + 1) n]
      have harith : c + 1 + n = c + (n + 1) := by omega
      rw [harith]

/-- C7: the rendered description of the item at 0-based position `i` is
the positional placeholder `"Item (i+1)"` whenever the group has a truthy
PO number (regardless of the item's own text), and the item's own
description text in vendor/random mode (`po_number=None`). -/
theorem line_description_modes (po : Option String) (items : List Row) (i : ℕ)
    (r : Row) (hr : items[i]? = some r) :
    (pyTruthy po = true →
      (lineDescsOf po items)[i]? = some ("Item " ++ toString (i + 1))) ∧
    (∀ d : String, r.item = some d → (lineDescsOf none items)[i]? = some d) := by
  constructor
  · intro hpo
    unfold lineDescsOf
    rw [hpo, lineDescsFrom_getElem? true 1 i items, hr]
    have harith : 1 + i = i + 1 := by omega
    rw [harith]
    show some (lineDesc true (i + 1) r.item) = some ("Item " ++ toString (i + 1))
    rcases r.item with _ | s <;> rfl
  · intro d hd
    unfold lineDescsOf
    show (lineDescsFrom (pyTruthy none) 1 items)[i]? = some d
    rw [show pyTruthy none = false from rfl,
      lineDescsFrom_getElem? false 1 i items, hr]
    simp [lineDesc, hd]

/-- Witness for C7 at a one-item list with item text `"Widget"`. -/
theorem line_description_modes_witness :
    (([⟨some "V", some "B", some "Widget", none, none, none⟩] : List Row)[0]?
        = some (⟨some "V", some "B", some "Widget", none, none, none⟩ : Row)) ∧
      (lineDescsOf (some "B")
          [⟨some "V", some "B", some "Widget", none, none, none⟩])[0]?
        = some ("Item " ++ toString (0 + 1)) ∧
      (lineDescsOf none [⟨some "V", some "B", some "Widget", none, none, none⟩])[0]?
        = some "Widget" :=
  ⟨rfl,
   (line_description_modes (some "B")
      [⟨some "V", some "B", some "Widget", none, none, none⟩] 0
      ⟨some "V", some "B", some "Widget", none, none, none⟩ rfl).1 (by decide),
   (line_description_modes (some "B")
      [⟨some "V", some "B", some "Widget", none, none, none⟩] 0
      ⟨some "V", some "B", some "Widget", none, none, none⟩ rfl).2 "Widget" rfl⟩

/-! ### Claim C10 -/

/-- C10: rows whose grouping field is missing are silently excluded —
`unique_vendors` ignores rows with a missing `Name`, and a row with a
missing `Document Number` belongs to no PO group. -/
theorem missing_key_rows_excluded (rows : List Row) :
    unique_vendors rows = unique_vendors (rows.filter (fun r => r.name.isSome)) ∧
    ∀ r ∈ rows, r.docNumber = none →
      ∀ d ∈ processPO rows, r ∉ groupOf rows d.po := by
  constructor
  · unfold unique_vendors
    congr 1
    induction rows with
    | nil => rfl
    | cons r rest ih =>
      cases hn : r.name with
      | none => simp [List.filterMap_cons, List.filter_cons, hn, ih]
      | some v => simp [List.filterMap_cons, List.filter_cons, hn, ih]
  · intro r _ hnone d _ hmem
    unfold groupOf at hmem
    rw [List.mem_filter, hnone] at hmem
    simpa using hmem.2

/-- Witness for C10: the no-document-number row lands in no group. -/
theorem missing_key_rows_excluded_witness :
    ((⟨none, none, none, none, none, none⟩ : Row) ∈
        ([⟨none, none, none, none, none, none⟩,
          ⟨some "V", some "B", none, none, none, none⟩] : List Row)) ∧
      ((⟨"V", "B", ["Item 1"], "V_B.pdf"⟩ : PODoc) ∈
        processPO [⟨none, none, none, none, none, none⟩,
          ⟨some "V", some "B", none, none, none, none⟩]) ∧
      (⟨none, none, none, none, none, none⟩ : Row) ∉
        groupOf [⟨none, none, none, none, none, none⟩,
            ⟨some "V", some "B", none, none, none, none⟩]
          (⟨"V", "B", ["Item 1"], "V_B.pdf"⟩ : PODoc).po :=
  ⟨by decide, by decide,
   (missing_key_rows_excluded
      [⟨none, none, none, none, none, none⟩,
        ⟨some "V", some "B", none, none, none, none⟩]).2
     ⟨none, none, none, none, none, none⟩ (by decide) rfl
     ⟨"V", "B", ["Item 1"], "V_B.pdf"⟩ (by decide)⟩

end InvoiceApp
